import Mathlib

/-!
Verification of the 2D affine geometric-transformation core of the
opencv-python-tutorial repository (src/06_Image_Transformations/transformation.py).

The canvas-sizing arithmetic for lossless rotation, the transformation matrices,
and the pipeline call sequence are embedded from the source file.  The warp
engine itself (inverse mapping, rounding, bound check, fill) and the reflect
index reversal are provided by the external library the script calls; they are
modelled from the spec (sections 3, 4.3, 4.4), as noted on each definition.
-/

namespace Transformation

/-- Raster data model from the spec (section 3): width, height, channel count and a
row-major buffer of samples whose length is width times height times channelCount. -/
structure Raster where
  width : ℕ
  height : ℕ
  channels : ℕ
  data : List ℕ
deriving DecidableEq

/-- Invariant on rasters from the spec (section 3): buffer length equals the product
of the declared dimensions, and the channel count is 1, 3 or 4. -/
def Raster.wellFormed (r : Raster) : Prop :=
  r.data.length = r.width * r.height * r.channels ∧
    (r.channels = 1 ∨ r.channels = 3 ∨ r.channels = 4)

/-- Sample of raster r at column x, row y, channel ch, using the row-major layout
of the spec (section 3); out of range indices default to 0. -/
def pixAt (r : Raster) (x y ch : ℕ) : ℕ :=
  r.data.getD ((y * r.width + x) * r.channels + ch) 0

/-- Pixel-for-pixel equality of two rasters: same dimensions and the same sample at
every in-bounds coordinate. -/
def pixelEq (r1 r2 : Raster) : Prop :=
  r1.width = r2.width ∧ r1.height = r2.height ∧ r1.channels = r2.channels ∧
    ∀ x y ch, x < r2.width → y < r2.height → ch < r2.channels →
      pixAt r1 x y ch = pixAt r2 x y ch

/-- AffineMatrix from the spec (section 3): six coefficients a b tx c d ty laid out as
the 2 x 3 matrix mapping (x, y) to (a x + b y + tx, c x + d y + ty). -/
structure Aff (K : Type) where
  a : K
  b : K
  tx : K
  c : K
  d : K
  ty : K

/-- Forward application of a 2 x 3 affine matrix to a point, per the spec (section 3). -/
def applyA {K : Type} [Field K] (m : Aff K) (p : K × K) : K × K :=
  (m.a * p.1 + m.b * p.2 + m.tx, m.c * p.1 + m.d * p.2 + m.ty)

/-- Matrix composition from the spec (section 4.1): the matrix equivalent to applying
m1 then m2, by homogeneous 3 x 3 multiplication truncated back to 2 x 3. -/
def compose {K : Type} [Field K] (m1 m2 : Aff K) : Aff K :=
  ⟨m2.a * m1.a + m2.b * m1.c, m2.a * m1.b + m2.b * m1.d,
   m2.a * m1.tx + m2.b * m1.ty + m2.tx,
   m2.c * m1.a + m2.d * m1.c, m2.c * m1.b + m2.d * m1.d,
   m2.c * m1.tx + m2.d * m1.ty + m2.ty⟩

/-- Degrees-to-radians conversion, as used at transformation.py lines 137 and 170
through np.deg2rad. -/
noncomputable def deg2rad (d : ℝ) : ℝ := d * Real.pi / 180

/-- Rotation matrix about a center, per the spec (section 4.1) and the OpenCV helper
getRotationMatrix2D used at transformation.py lines 152 and 180: positive angles
rotate counter-clockwise, the angle is in degrees, and the translation column keeps
the center fixed. -/
noncomputable def getRotationMatrix2D (center : ℝ × ℝ) (angle : ℝ) (scale : ℝ) :
    Aff ℝ :=
  let alpha := scale * Real.cos (deg2rad angle)
  let beta := scale * Real.sin (deg2rad angle)
  ⟨alpha, beta, (1 - alpha) * center.1 - beta * center.2,
   -beta, alpha, beta * center.1 + (1 - alpha) * center.2⟩

/-- Translation matrix from transformation.py lines 94 to 95 and 176: identity linear
part and translation column (tx, ty). -/
def translateM {K : Type} [Field K] (tx ty : ℤ) : Aff K :=
  ⟨1, 0, (tx : K), 0, 1, (ty : K)⟩

/-- Scaling matrix from transformation.py line 207: diagonal linear part, zero
translation. -/
def scalingM {K : Type} [Field K] (sx sy : K) : Aff K :=
  ⟨sx, 0, 0, 0, sy, 0⟩

/-- Row-major destination buffer builder: entry i of the buffer is the sample for
the destination coordinate whose channel is i mod C, column is i div C mod W and
row is i div (C * W), matching the layout of the spec (section 3). -/
def buildData (W H C : ℕ) (f : ℕ → ℕ → ℕ → ℕ) : List ℕ :=
  (List.range (W * H * C)).map (fun i => f ((i / C) % W) (i / (C * W)) (i % C))

/-- Modelled from the spec: the Warp Engine per-pixel rule (section 4.3), which is not
in src (it is the library routine cv2.warpAffine the script calls).  Each destination
pixel (u, v) is computed by inverse mapping: invert the affine matrix, map (u, v)
back to a source coordinate, round to the nearest integer coordinate (the
nearest-neighbor baseline), and sample the source when the coordinate is in bounds,
the constant fill value otherwise. -/
def warpPix {K : Type} [LinearOrderedField K] [FloorRing K]
    (src : Raster) (M : Aff K) (fill : ℕ) (u v ch : ℕ) : ℕ :=
  let det := M.a * M.d - M.b * M.c
  let sx := (M.d * ((u : K) - M.tx) - M.b * ((v : K) - M.ty)) / det
  let sy := (M.a * ((v : K) - M.ty) - M.c * ((u : K) - M.tx)) / det
  let rx := round sx
  let ry := round sy
  if 0 ≤ rx ∧ rx < (src.width : ℤ) ∧ 0 ≤ ry ∧ ry < (src.height : ℤ) then
    pixAt src rx.toNat ry.toNat ch
  else fill

/-- Modelled from the spec: the Warp Engine raster constructor (section 4.3), which is
not in src.  It allocates a destination raster of the requested dimensions with the
channel count of the source and fills every entry through warpPix. -/
def warpRaster {K : Type} [LinearOrderedField K] [FloorRing K]
    (src : Raster) (M : Aff K) (W H : ℕ) (fill : ℕ) : Raster :=
  ⟨W, H, src.channels, buildData W H src.channels (warpPix src M fill)⟩

/-- Error kinds of the Warp Engine, from the spec (section 7). -/
inductive WarpError where
  | degenerateTransform
  | invalidDimensions
  | channelMismatch
deriving DecidableEq

/-- Modelled from the spec: the Warp Engine entry point (sections 4.3 and 7), which is
not in src.  The matrix is checked for invertibility before inverse mapping; a
singular matrix is the defined failure degenerateTransform, detected before any
destination raster is built; otherwise a fully populated destination is returned. -/
def warp {K : Type} [LinearOrderedField K] [FloorRing K] [DecidableEq K]
    (src : Raster) (M : Aff K) (W H : ℕ) (fill : ℕ) : Except WarpError Raster :=
  if M.a * M.d - M.b * M.c = 0 then Except.error WarpError.degenerateTransform
  else Except.ok (warpRaster src M W H fill)

/-- Reflection axis selector, from the spec (section 3). -/
inductive Axis where
  | horizontal
  | vertical
  | both
deriving DecidableEq

/-- Column index reversal for reflection: the vertical flip and the double flip
negate the x mapping, per the spec (section 4.4). -/
def reflectX (axis : Axis) (w x : ℕ) : ℕ :=
  match axis with
  | Axis.vertical => w - 1 - x
  | Axis.both => w - 1 - x
  | Axis.horizontal => x

/-- Row index reversal for reflection: the horizontal flip and the double flip
negate the y mapping, per the spec (section 4.4). -/
def reflectY (axis : Axis) (h y : ℕ) : ℕ :=
  match axis with
  | Axis.horizontal => h - 1 - y
  | Axis.both => h - 1 - y
  | Axis.vertical => y

/-- Modelled from the spec: the reflect operation (section 4.4), which is not in src
(the script calls the library routine cv2.flip at transformation.py line 233).  It is
the direct index-reversal implementation: a same-sized raster whose pixel (x, y) is
the source pixel at the reversed indices. -/
def reflect (src : Raster) (axis : Axis) : Raster :=
  ⟨src.width, src.height, src.channels,
   buildData src.width src.height src.channels
     (fun x y ch => pixAt src (reflectX axis src.width x) (reflectY axis src.height y) ch)⟩

/-- Translate pipeline operation from transformation.py lines 92 to 96: build the
translation matrix and warp into a destination with the dimensions of the source,
with the default zero (black) fill. -/
def translate (src : Raster) (tx ty : ℤ) : Raster :=
  warpRaster src (translateM (K := ℚ) tx ty) src.width src.height 0

/-- Integer center of a raster, from transformation.py line 151: floor division of
each dimension by two. -/
def center (w h : ℕ) : ℕ × ℕ := (w / 2, h / 2)

/-- Rotate pipeline operation (the lossy variant, lossless = false) from
transformation.py lines 151 to 153: rotate about the integer center of the source
into a destination with the dimensions of the source. -/
noncomputable def rotate (src : Raster) (teta : ℤ) : Raster :=
  warpRaster src
    (getRotationMatrix2D
      (((center src.width src.height).1 : ℝ), ((center src.width src.height).2 : ℝ))
      (teta : ℝ) 1)
    src.width src.height 0

/-- Scale pipeline operation from transformation.py lines 204 to 208, generalized to
the two-factor form of the spec (section 4.4): destination dimensions are the
ceilings of width times sx and height times sy, the matrix is diagonal. -/
def scaleOp (src : Raster) (sx sy : ℚ) : Raster :=
  warpRaster src (scalingM sx sy)
    (⌈(src.width : ℚ) * sx⌉.toNat) (⌈(src.height : ℚ) * sy⌉.toNat) 0

/-- Reduced angle in radians for canvas sizing, from transformation.py line 170:
teta_rad is deg2rad of teta mod 90.  The angle parameter is an integer number of
degrees, as in the source; the Lean emod on a positive modulus agrees with the
Python mod. -/
noncomputable def tetaRad (teta : ℤ) : ℝ := deg2rad ((teta % 90 : ℤ) : ℝ)

/-- Canvas Sizer destination width, from transformation.py line 171: the ceiling of
width times cos of the reduced angle plus height times sin of the reduced angle. -/
noncomputable def widthR (w h : ℕ) (teta : ℤ) : ℤ :=
  ⌈(w : ℝ) * Real.cos (tetaRad teta) + (h : ℝ) * Real.sin (tetaRad teta)⌉

/-- Canvas Sizer destination height, from transformation.py line 172: the ceiling of
width times sin of the reduced angle plus height times cos of the reduced angle. -/
noncomputable def heightR (w h : ℕ) (teta : ℤ) : ℤ :=
  ⌈(w : ℝ) * Real.sin (tetaRad teta) + (h : ℝ) * Real.cos (tetaRad teta)⌉

/-- Center of the enlarged canvas, from transformation.py line 173: floor division of
the sizer output by two. -/
noncomputable def centerR (w h : ℕ) (teta : ℤ) : ℤ × ℤ :=
  (widthR w h teta / 2, heightR w h teta / 2)

/-- Pre-translation matrix of the lossless rotation pipeline, from transformation.py
line 176: translate by the difference of the new center and the old center. -/
noncomputable def preTranslationM (w h : ℕ) (teta : ℤ) : Aff ℝ :=
  ⟨1, 0, (((centerR w h teta).1 - ((center w h).1 : ℤ) : ℤ) : ℝ),
   0, 1, (((centerR w h teta).2 - ((center w h).2 : ℤ) : ℤ) : ℝ)⟩

/-- Coordinate map of the lossless rotation pipeline, from transformation.py lines
168 to 181: first the pre-translation into the enlarged canvas, then the rotation by
the original (not the reduced) angle about the new center. -/
noncomputable def rotateLosslessMap (w h : ℕ) (teta : ℤ) (p : ℝ × ℝ) : ℝ × ℝ :=
  applyA
    (getRotationMatrix2D (((centerR w h teta).1 : ℝ), ((centerR w h teta).2 : ℝ))
      (teta : ℝ) 1)
    (applyA (preTranslationM w h teta) p)

/-- Canvas Sizer width written from the words of the spec (section 4.2, step 2):
ceil of width times cos of the reduced angle plus height times sin of it, with the
reduced angle of step 1 being angle mod 90 converted to radians.  Stated separately
from widthR so the source formula can be compared against the spec formula. -/
noncomputable def specWidthR (w h : ℕ) (angle : ℤ) : ℤ :=
  ⌈(w : ℝ) * Real.cos (((angle % 90 : ℤ) : ℝ) * Real.pi / 180) +
    (h : ℝ) * Real.sin (((angle % 90 : ℤ) : ℝ) * Real.pi / 180)⌉

/-- Canvas Sizer height written from the words of the spec (section 4.2, step 2). -/
noncomputable def specHeightR (w h : ℕ) (angle : ℤ) : ℤ :=
  ⌈(w : ℝ) * Real.sin (((angle % 90 : ℤ) : ℝ) * Real.pi / 180) +
    (h : ℝ) * Real.cos (((angle % 90 : ℤ) : ℝ) * Real.pi / 180)⌉

/-- TransformSpec tagged variant from the spec (section 3). -/
inductive TransformSpec where
  | translateBy (dx dy : ℤ)
  | rotateBy (angle : ℤ)
  | scaleBy (sx sy : ℚ)
  | reflectAcross (axis : Axis)

/-- Pipeline dispatch of the four named operations, per the spec (section 4.4). -/
noncomputable def applyTransform (src : Raster) : TransformSpec → Raster
  | TransformSpec.translateBy dx dy => translate src dx dy
  | TransformSpec.rotateBy a => rotate src a
  | TransformSpec.scaleBy sx sy => scaleOp src sx sy
  | TransformSpec.reflectAcross ax => reflect src ax

/-- The empty raster, used as the lookup default of the allocation model. -/
def emptyRaster : Raster := ⟨0, 0, 0, []⟩

/-- Modelled from the spec: the ownership and allocation discipline (sections 3 and
5), which is not in src.  A transform call over a store of rasters reads the source
at index i, appends a freshly allocated destination raster, and returns the new
store with the index of the destination; no existing raster is written. -/
noncomputable def performTransform (store : List Raster) (i : ℕ) (spec : TransformSpec) :
    List Raster × ℕ :=
  (store ++ [applyTransform (store.getD i emptyRaster) spec], store.length)

/-- Entry lookup of a raster built through buildData: for in-bounds coordinates the
row-major index decomposes back to the coordinate, and the sample is the generating
function at that coordinate. -/
theorem pixAt_build (f : ℕ → ℕ → ℕ → ℕ) (W H C : ℕ) {x y ch : ℕ}
    (hx : x < W) (hy : y < H) (hc : ch < C) :
    pixAt ⟨W, H, C, buildData W H C f⟩ x y ch = f x y ch := by
  have hC : 0 < C := lt_of_le_of_lt (Nat.zero_le ch) hc
  have hW : 0 < W := lt_of_le_of_lt (Nat.zero_le x) hx
  have hrow : y * W + x + 1 ≤ H * W := by
    calc y * W + x + 1 ≤ y * W + W := by omega
    _ = (y + 1) * W := by ring
    _ ≤ H * W := Nat.mul_le_mul_right W (Nat.succ_le_of_lt hy)
  have hidx : (y * W + x) * C + ch < W * H * C := by
    calc (y * W + x) * C + ch < (y * W + x) * C + C := by omega
    _ = (y * W + x + 1) * C := by ring
    _ ≤ (H * W) * C := Nat.mul_le_mul_right C hrow
    _ = W * H * C := by ring
  have h2 : ((y * W + x) * C + ch) / C = y * W + x := by
    rw [Nat.mul_comm (y * W + x) C, Nat.mul_add_div hC, Nat.div_eq_of_lt hc,
      Nat.add_zero]
  have h4 : (y * W + x) % W = x := by
    rw [Nat.mul_comm y W, Nat.mul_add_mod, Nat.mod_eq_of_lt hx]
  have h3 : ((y * W + x) * C + ch) / (C * W) = y := by
    rw [← Nat.div_div_eq_div_mul, h2, Nat.mul_comm y W, Nat.mul_add_div hW,
      Nat.div_eq_of_lt hx, Nat.add_zero]
  have h1 : ((y * W + x) * C + ch) % C = ch := by
    rw [Nat.mul_comm (y * W + x) C, Nat.mul_add_mod, Nat.mod_eq_of_lt hc]
  unfold pixAt buildData
  simp only [List.getD_eq_getElem?_getD, List.getElem?_map, List.getElem?_range hidx,
    Option.map_some', Option.getD_some]
  rw [h1, h2, h3, h4]

/-- Per-pixel behavior of the engine on a pure integer translation matrix: the
inverse mapping is exact, so the destination pixel (u, v) is the source pixel at
(u - dx, v - dy) when that coordinate is in bounds, and the fill value otherwise. -/
theorem warpPix_shift {K : Type} [LinearOrderedField K] [FloorRing K]
    (src : Raster) (dx dy : ℤ) (fill u v ch : ℕ) :
    warpPix src (⟨1, 0, (dx : K), 0, 1, (dy : K)⟩ : Aff K) fill u v ch =
      if 0 ≤ (u : ℤ) - dx ∧ (u : ℤ) - dx < (src.width : ℤ) ∧
          0 ≤ (v : ℤ) - dy ∧ (v : ℤ) - dy < (src.height : ℤ)
      then pixAt src ((u : ℤ) - dx).toNat ((v : ℤ) - dy).toNat ch
      else fill := by
  have hsx : ((1 : K) * ((u : K) - (dx : K)) - 0 * ((v : K) - (dy : K))) /
      ((1 : K) * 1 - 0 * 0) = (((u : ℤ) - dx : ℤ) : K) := by
    push_cast
    ring
  have hsy : ((1 : K) * ((v : K) - (dy : K)) - 0 * ((u : K) - (dx : K))) /
      ((1 : K) * 1 - 0 * 0) = (((v : ℤ) - dy : ℤ) : K) := by
    push_cast
    ring
  simp only [warpPix]
  rw [hsx, hsy, round_intCast, round_intCast]

/-- Claim C10: the pre-translation offset of the lossless rotation pipeline, computed
with integer floor division as the difference of the two floored centers, maps the
integer center pixel of the source exactly onto the center of the enlarged canvas,
for every source size and angle (hence for every parity combination), and that same
point is fixed by the rotation matrix built about it. -/
theorem pre_translation_maps_center (w h : ℕ) (teta : ℤ) :
    applyA (preTranslationM w h teta)
      (((center w h).1 : ℝ), ((center w h).2 : ℝ)) =
      (((centerR w h teta).1 : ℝ), ((centerR w h teta).2 : ℝ)) ∧
    applyA
      (getRotationMatrix2D (((centerR w h teta).1 : ℝ), ((centerR w h teta).2 : ℝ))
        (teta : ℝ) 1)
      (((centerR w h teta).1 : ℝ), ((centerR w h teta).2 : ℝ)) =
      (((centerR w h teta).1 : ℝ), ((centerR w h teta).2 : ℝ)) := by
  constructor
  · simp only [applyA, preTranslationM, Prod.mk.injEq]
    constructor <;> push_cast <;> ring
  · simp only [applyA, getRotationMatrix2D, Prod.mk.injEq]
    constructor <;> ring

/-- Claim C8: rotations about a common center compose by adding angles; composing the
30 degree and the 15 degree rotation matrices about a center c and applying the
result to any point gives the 45 degree rotation about c applied to that point. -/
theorem rotation_compose_30_15 (c p : ℝ × ℝ) :
    applyA (compose (getRotationMatrix2D c 30 1) (getRotationMatrix2D c 15 1)) p =
      applyA (getRotationMatrix2D c 45 1) p := by
  have hang : deg2rad 45 = deg2rad 30 + deg2rad 15 := by
    unfold deg2rad
    ring
  simp only [applyA, compose, getRotationMatrix2D, Prod.mk.injEq]
  rw [hang, Real.cos_add, Real.sin_add]
  constructor <;> ring

/-- Lower rational bound on the square root of two, scaled by 150. -/
theorem sqrt2_scaled_lb : (212 : ℝ) < 150 * Real.sqrt 2 := by
  have h : (212 : ℝ) / 150 < Real.sqrt 2 := by
    rw [show (212 : ℝ) / 150 = 106 / 75 from by norm_num]
    rw [Real.lt_sqrt (by norm_num)]
    norm_num
  linarith

/-- Upper rational bound on the square root of two, scaled by 300. -/
theorem sqrt2_scaled_ub : 300 * Real.sqrt 2 ≤ (425 : ℝ) := by
  have h : Real.sqrt 2 ≤ (17 : ℝ) / 12 := by
    rw [show Real.sqrt 2 ≤ (17 : ℝ) / 12 ↔ (2 : ℝ) ≤ ((17 : ℝ) / 12) ^ 2 from
      Real.sqrt_le_left (by norm_num)]
    norm_num
  linarith

/-- Reduced angle of 45 degrees in radians is pi over 4. -/
theorem tetaRad_45 : tetaRad 45 = Real.pi / 4 := by
  unfold tetaRad deg2rad
  rw [show ((45 : ℤ) % 90) = 45 from by decide]
  push_cast
  ring

/-- The Canvas Sizer width of a 300 by 300 source at 45 degrees is exactly 425. -/
theorem widthR_300_45 : widthR 300 300 45 = 425 := by
  unfold widthR
  rw [tetaRad_45, Real.cos_pi_div_four, Real.sin_pi_div_four, Int.ceil_eq_iff]
  have h1 := sqrt2_scaled_lb
  have h2 := sqrt2_scaled_ub
  constructor
  · push_cast
    nlinarith
  · push_cast
    nlinarith

/-- The Canvas Sizer height of a 300 by 300 source at 45 degrees is exactly 425. -/
theorem heightR_300_45 : heightR 300 300 45 = 425 := by
  unfold heightR
  rw [tetaRad_45, Real.cos_pi_div_four, Real.sin_pi_div_four, Int.ceil_eq_iff]
  have h1 := sqrt2_scaled_lb
  have h2 := sqrt2_scaled_ub
  constructor
  · push_cast
    nlinarith
  · push_cast
    nlinarith

/-- Claim C1: the Canvas Sizer of the source (transformation.py lines 169 to 173)
computes exactly the spec formula, with the reduced angle taken mod 90 degrees, for
every source size and every angle; and on a 300 by 300 source at 45 degrees both
destination dimensions are exactly 425. -/
theorem canvas_sizer_formula_and_425 :
    (∀ (w h : ℕ) (angle : ℤ),
        widthR w h angle = specWidthR w h angle ∧
        heightR w h angle = specHeightR w h angle) ∧
    widthR 300 300 45 = 425 ∧ heightR 300 300 45 = 425 :=
  ⟨fun _ _ _ => ⟨rfl, rfl⟩, widthR_300_45, heightR_300_45⟩

/-- Claim C3: a singular matrix is rejected by the Warp Engine with the typed error
degenerateTransform before any destination raster is built, a zero scale factor
yields such a rejection, and every warp call either fails that way or returns a
fully populated destination raster of the requested dimensions. -/
theorem warp_degenerate_or_total :
    (∀ (src : Raster) (M : Aff ℚ) (W H fill : ℕ),
        M.a * M.d - M.b * M.c = 0 →
        warp src M W H fill = Except.error WarpError.degenerateTransform) ∧
    (∀ (src : Raster) (sx sy : ℚ) (W H fill : ℕ),
        sx = 0 ∨ sy = 0 →
        warp src (scalingM sx sy) W H fill = Except.error WarpError.degenerateTransform) ∧
    (∀ (src : Raster) (M : Aff ℚ) (W H fill : ℕ),
        warp src M W H fill = Except.error WarpError.degenerateTransform ∨
        ∃ dst, warp src M W H fill = Except.ok dst ∧ dst.width = W ∧ dst.height = H ∧
          dst.channels = src.channels ∧ dst.data.length = W * H * src.channels) := by
  have h1 : ∀ (src : Raster) (M : Aff ℚ) (W H fill : ℕ),
      M.a * M.d - M.b * M.c = 0 →
      warp src M W H fill = Except.error WarpError.degenerateTransform := by
    intro src M W H fill hdet
    unfold warp
    rw [if_pos hdet]
  refine ⟨h1, ?_, ?_⟩
  · intro src sx sy W H fill hz
    apply h1
    rcases hz with h | h <;> rw [h] <;> simp [scalingM]
  · intro src M W H fill
    by_cases hdet : M.a * M.d - M.b * M.c = 0
    · exact Or.inl (h1 src M W H fill hdet)
    · refine Or.inr ⟨warpRaster src M W H fill, ?_, rfl, rfl, rfl, ?_⟩
      · unfold warp
        rw [if_neg hdet]
      · simp [warpRaster, buildData]

/-- Witness for claim C3 at a concrete input: the warp of a 1 by 1 raster through a
scaling matrix with zero x factor fails with degenerateTransform. -/
theorem warp_degenerate_or_total_witness :
    warp (Raster.mk 1 1 1 [5]) (scalingM (0 : ℚ) 2) 3 3 7 =
      Except.error WarpError.degenerateTransform :=
  warp_degenerate_or_total.2.1 (Raster.mk 1 1 1 [5]) 0 2 3 3 7 (Or.inl rfl)

/-- Claim C9: a transform call over a store of rasters mutates no existing raster
(so the source keeps its dimensions and every pixel), returns a freshly allocated
destination at a new index distinct from the source index, and the destination is
the pure function of the source and the parameters. -/
theorem transform_no_mutation (store : List Raster) (i : ℕ) (spec : TransformSpec)
    (hi : i < store.length) :
    (∀ k, k < store.length →
      (performTransform store i spec).1.getD k emptyRaster = store.getD k emptyRaster) ∧
    (performTransform store i spec).2 = store.length ∧
    (performTransform store i spec).2 ≠ i ∧
    (performTransform store i spec).1.getD (performTransform store i spec).2 emptyRaster =
      applyTransform (store.getD i emptyRaster) spec := by
  refine ⟨?_, rfl, ?_, ?_⟩
  · intro k hk
    unfold performTransform
    exact List.getD_append _ _ _ _ hk
  · unfold performTransform
    simp only
    omega
  · unfold performTransform
    simp only
    rw [List.getD_eq_getElem?_getD, List.getElem?_append_right (le_refl _)]
    simp

/-- Witness for claim C9 at a concrete input: transforming the raster at index 0 of a
one-raster store returns index 1 and leaves the stored raster untouched. -/
theorem transform_no_mutation_witness :
    (performTransform [Raster.mk 1 1 1 [9]] 0 (TransformSpec.translateBy 1 1)).2 = 1 ∧
    (performTransform [Raster.mk 1 1 1 [9]] 0
        (TransformSpec.translateBy 1 1)).1.getD 0 emptyRaster = Raster.mk 1 1 1 [9] := by
  have h := transform_no_mutation [Raster.mk 1 1 1 [9]] 0 (TransformSpec.translateBy 1 1)
    (by decide)
  exact ⟨h.2.1, (h.1 0 (by decide)).trans rfl⟩

/-- Warping into a source-sized destination through the identity matrix reproduces
the source pixel for pixel: the inverse mapping is exact and always in bounds. -/
theorem pixelEq_warpRaster_id {K : Type} [LinearOrderedField K] [FloorRing K]
    (src : Raster) (M : Aff K) (hM : M = ⟨1, 0, 0, 0, 1, 0⟩) :
    pixelEq (warpRaster src M src.width src.height 0) src := by
  subst hM
  refine ⟨rfl, rfl, rfl, ?_⟩
  intro x y ch hx hy hc
  unfold warpRaster
  rw [pixAt_build _ _ _ _ hx hy hc]
  have h := warpPix_shift (K := K) src 0 0 0 x y ch
  simp only [Int.cast_zero, sub_zero] at h
  rw [h, if_pos]
  · rw [Int.toNat_natCast, Int.toNat_natCast]
  · exact ⟨Int.natCast_nonneg x, by exact_mod_cast hx, Int.natCast_nonneg y,
      by exact_mod_cast hy⟩

/-- The rotation matrix about any center with angle zero and unit scale is the
identity matrix. -/
theorem rotM_zero (c : ℝ × ℝ) : getRotationMatrix2D c 0 1 = ⟨1, 0, 0, 0, 1, 0⟩ := by
  simp only [getRotationMatrix2D, deg2rad]
  norm_num

/-- Claim C4: rotating by zero degrees (lossy variant) and translating by (0, 0)
each return a raster pixel-for-pixel equal to the source. -/
theorem identity_transforms (src : Raster) :
    pixelEq (rotate src 0) src ∧ pixelEq (translate src 0 0) src := by
  constructor
  · unfold rotate
    apply pixelEq_warpRaster_id
    rw [Int.cast_zero]
    exact rotM_zero _
  · unfold translate
    apply pixelEq_warpRaster_id
    simp [translateM]

/-- Entry lookup of a reflected raster at an in-bounds coordinate: the sample is the
source sample at the reversed indices. -/
theorem pixAt_reflect (src : Raster) (axis : Axis) {x y ch : ℕ}
    (hx : x < src.width) (hy : y < src.height) (hc : ch < src.channels) :
    pixAt (reflect src axis) x y ch =
      pixAt src (reflectX axis src.width x) (reflectY axis src.height y) ch := by
  unfold reflect
  exact pixAt_build _ _ _ _ hx hy hc

/-- Claim C7: the horizontal flip negates the y mapping, the vertical flip negates
the x mapping, and the double flip does both, per the image coordinate grid. -/
theorem reflect_mapping (src : Raster) {x y ch : ℕ}
    (hx : x < src.width) (hy : y < src.height) (hc : ch < src.channels) :
    pixAt (reflect src Axis.horizontal) x y ch = pixAt src x (src.height - 1 - y) ch ∧
    pixAt (reflect src Axis.vertical) x y ch = pixAt src (src.width - 1 - x) y ch ∧
    pixAt (reflect src Axis.both) x y ch =
      pixAt src (src.width - 1 - x) (src.height - 1 - y) ch :=
  ⟨pixAt_reflect src Axis.horizontal hx hy hc,
   pixAt_reflect src Axis.vertical hx hy hc,
   pixAt_reflect src Axis.both hx hy hc⟩

/-- Witness for claim C7 at a concrete input: on a 2 by 2 single-channel raster the
three flips each read the expected reversed source index at pixel (0, 0). -/
theorem reflect_mapping_witness :
    pixAt (reflect (Raster.mk 2 2 1 [1, 2, 3, 4]) Axis.horizontal) 0 0 0 =
      pixAt (Raster.mk 2 2 1 [1, 2, 3, 4]) 0 1 0 ∧
    pixAt (reflect (Raster.mk 2 2 1 [1, 2, 3, 4]) Axis.vertical) 0 0 0 =
      pixAt (Raster.mk 2 2 1 [1, 2, 3, 4]) 1 0 0 ∧
    pixAt (reflect (Raster.mk 2 2 1 [1, 2, 3, 4]) Axis.both) 0 0 0 =
      pixAt (Raster.mk 2 2 1 [1, 2, 3, 4]) 1 1 0 :=
  reflect_mapping (Raster.mk 2 2 1 [1, 2, 3, 4]) (by decide) (by decide) (by decide)

/-- Index reversal is an involution on in-bounds column indices. -/
theorem reflectX_reflectX (axis : Axis) {w x : ℕ} (hx : x < w) :
    reflectX axis w (reflectX axis w x) = x := by
  cases axis <;> simp [reflectX] <;> omega

/-- Index reversal is an involution on in-bounds row indices. -/
theorem reflectY_reflectY (axis : Axis) {h y : ℕ} (hy : y < h) :
    reflectY axis h (reflectY axis h y) = y := by
  cases axis <;> simp [reflectY] <;> omega

/-- Index reversal keeps in-bounds column indices in bounds. -/
theorem reflectX_lt (axis : Axis) {w x : ℕ} (hx : x < w) : reflectX axis w x < w := by
  cases axis <;> simp [reflectX] <;> omega

/-- Index reversal keeps in-bounds row indices in bounds. -/
theorem reflectY_lt (axis : Axis) {h y : ℕ} (hy : y < h) : reflectY axis h y < h := by
  cases axis <;> simp [reflectY] <;> omega

/-- Claim C6: reflection is an involution for every axis; reflecting twice across the
same axis reproduces the source raster pixel for pixel. -/
theorem reflect_involution (src : Raster) (axis : Axis) :
    pixelEq (reflect (reflect src axis) axis) src := by
  refine ⟨rfl, rfl, rfl, ?_⟩
  intro x y ch hx hy hc
  rw [pixAt_reflect (reflect src axis) axis hx hy hc]
  rw [show (reflect src axis).width = src.width from rfl,
    show (reflect src axis).height = src.height from rfl]
  rw [pixAt_reflect src axis (reflectX_lt axis hx) (reflectY_lt axis hy) hc]
  rw [reflectX_reflectX axis hx, reflectY_reflectY axis hy]

/-- Per-pixel behavior of the translate pipeline at an in-bounds destination
coordinate: the destination pixel (u, v) is the source pixel at (u - dx, v - dy)
when that source coordinate is in bounds, and the zero fill otherwise. -/
theorem pixAt_translate (src : Raster) (dx dy : ℤ) {u v ch : ℕ}
    (hu : u < src.width) (hv : v < src.height) (hc : ch < src.channels) :
    pixAt (translate src dx dy) u v ch =
      if 0 ≤ (u : ℤ) - dx ∧ (u : ℤ) - dx < (src.width : ℤ) ∧
          0 ≤ (v : ℤ) - dy ∧ (v : ℤ) - dy < (src.height : ℤ)
      then pixAt src ((u : ℤ) - dx).toNat ((v : ℤ) - dy).toNat ch
      else 0 := by
  unfold translate warpRaster
  rw [pixAt_build _ _ _ _ hu hv hc]
  exact warpPix_shift src dx dy 0 u v ch

/-- Claim C5 as amended: the round trip translate by (dx, dy) then by the negated
offsets preserves exactly the pixels whose coordinates lie in the region from
max(0, -dx) inclusive to width - max(0, dx) exclusive horizontally (and the same
with dy and the height vertically) - the pixels that never crossed a raster
boundary - and every pixel outside that region carries the zero fill color. -/
theorem translate_round_trip_amended (src : Raster) (dx dy : ℤ) {u v ch : ℕ}
    (hu : u < src.width) (hv : v < src.height) (hc : ch < src.channels) :
    ((max 0 (-dx) ≤ (u : ℤ) ∧ (u : ℤ) < (src.width : ℤ) - max 0 dx ∧
        max 0 (-dy) ≤ (v : ℤ) ∧ (v : ℤ) < (src.height : ℤ) - max 0 dy) →
      pixAt (translate (translate src dx dy) (-dx) (-dy)) u v ch = pixAt src u v ch) ∧
    (¬(max 0 (-dx) ≤ (u : ℤ) ∧ (u : ℤ) < (src.width : ℤ) - max 0 dx ∧
        max 0 (-dy) ≤ (v : ℤ) ∧ (v : ℤ) < (src.height : ℤ) - max 0 dy) →
      pixAt (translate (translate src dx dy) (-dx) (-dy)) u v ch = 0) := by
  have hmax : (max 0 (-dx) ≤ (u : ℤ) ∧ (u : ℤ) < (src.width : ℤ) - max 0 dx ∧
      max 0 (-dy) ≤ (v : ℤ) ∧ (v : ℤ) < (src.height : ℤ) - max 0 dy) ↔
      (0 ≤ (u : ℤ) + dx ∧ (u : ℤ) + dx < (src.width : ℤ) ∧
        0 ≤ (v : ℤ) + dy ∧ (v : ℤ) + dy < (src.height : ℤ)) := by
    rw [max_le_iff, max_le_iff, lt_sub_iff_add_lt, lt_sub_iff_add_lt,
      ← max_add_add_left, ← max_add_add_left, max_lt_iff, max_lt_iff]
    have hu2 : (u : ℤ) < (src.width : ℤ) := by exact_mod_cast hu
    have hv2 : (v : ℤ) < (src.height : ℤ) := by exact_mod_cast hv
    constructor
    · intro hh
      omega
    · intro hh
      omega
  have key : pixAt (translate (translate src dx dy) (-dx) (-dy)) u v ch =
      if 0 ≤ (u : ℤ) + dx ∧ (u : ℤ) + dx < (src.width : ℤ) ∧
          0 ≤ (v : ℤ) + dy ∧ (v : ℤ) + dy < (src.height : ℤ)
      then pixAt src u v ch else 0 := by
    rw [pixAt_translate (translate src dx dy) (-dx) (-dy) hu hv hc]
    rw [show (translate src dx dy).width = src.width from rfl,
      show (translate src dx dy).height = src.height from rfl]
    simp only [sub_neg_eq_add]
    by_cases hA : 0 ≤ (u : ℤ) + dx ∧ (u : ℤ) + dx < (src.width : ℤ) ∧
        0 ≤ (v : ℤ) + dy ∧ (v : ℤ) + dy < (src.height : ℤ)
    · rw [if_pos hA, if_pos hA]
      obtain ⟨hA1, hA2, hA3, hA4⟩ := hA
      have ha : ((u : ℤ) + dx).toNat < src.width := by omega
      have hb : ((v : ℤ) + dy).toNat < src.height := by omega
      rw [pixAt_translate src dx dy ha hb hc]
      rw [Int.toNat_of_nonneg hA1, Int.toNat_of_nonneg hA3]
      rw [if_pos]
      · rw [add_sub_cancel_right, add_sub_cancel_right, Int.toNat_natCast,
          Int.toNat_natCast]
      · refine ⟨by omega, by omega, by omega, by omega⟩
    · rw [if_neg hA, if_neg hA]
  constructor
  · intro hreg
    rw [key, if_pos (hmax.mp hreg)]
  · intro hreg
    rw [key, if_neg (fun hcond => hreg (hmax.mpr hcond))]

/-- Witness for claim C5 at a concrete input: on a 2 by 1 raster with dx = 1 the
pixel at column 0 lies in the preserved region and survives the round trip. -/
theorem translate_round_trip_amended_witness :
    pixAt (translate (translate (Raster.mk 2 1 1 [10, 20]) 1 0) (-1) 0) 0 0 0 =
      pixAt (Raster.mk 2 1 1 [10, 20]) 0 0 0 :=
  (translate_round_trip_amended (Raster.mk 2 1 1 [10, 20]) 1 0
    (by decide) (by decide) (by decide)).1 (by decide)

/-- Counterexample to claim C5 as stated: on a 2 by 1 raster with samples 10 and 20
and offsets dx = 1, dy = 0 the pixel at column 1 lies inside the claimed preserved
region (from max(0, dx) = 1 inclusive to the width 2 exclusive), yet the round trip
leaves the zero fill there, not the source sample 20; the preserved region is in
fact on the opposite side. -/
theorem translate_round_trip_cex :
    (max 0 ((1 : ℤ)) ≤ ((1 : ℕ) : ℤ) ∧ ((1 : ℕ) : ℤ) < ((2 : ℕ) : ℤ) ∧
      max 0 ((0 : ℤ)) ≤ ((0 : ℕ) : ℤ) ∧ ((0 : ℕ) : ℤ) < ((1 : ℕ) : ℤ)) ∧
    pixAt (translate (translate (Raster.mk 2 1 1 [10, 20]) 1 0) (-1) 0) 1 0 0 = 0 ∧
    pixAt (Raster.mk 2 1 1 [10, 20]) 1 0 0 = 20 ∧
    pixAt (translate (translate (Raster.mk 2 1 1 [10, 20]) 1 0) (-1) 0) 1 0 0 ≠
      pixAt (Raster.mk 2 1 1 [10, 20]) 1 0 0 := by
  have hzero : pixAt (translate (translate (Raster.mk 2 1 1 [10, 20]) 1 0) (-1) 0)
      1 0 0 = 0 := by
    rw [pixAt_translate (translate (Raster.mk 2 1 1 [10, 20]) 1 0) (-1) 0
      (by decide) (by decide) (by decide)]
    rw [if_neg (by decide)]
  refine ⟨by decide, hzero, by decide, ?_⟩
  rw [hzero]
  decide

/-- The reduced angle of 90 degrees is zero radians. -/
theorem tetaRad_90 : tetaRad 90 = 0 := by
  unfold tetaRad deg2rad
  rw [show ((90 : ℤ) % 90) = 0 from by decide]
  norm_num

/-- Ninety degrees in radians is pi over two. -/
theorem deg2rad_90 : deg2rad ((90 : ℤ) : ℝ) = Real.pi / 2 := by
  unfold deg2rad
  push_cast
  ring

/-- Forty-five degrees in radians is pi over four. -/
theorem deg2rad_45 : deg2rad ((45 : ℤ) : ℝ) = Real.pi / 4 := by
  unfold deg2rad
  push_cast
  ring

/-- The Canvas Sizer height of a 200 by 100 source at 90 degrees is 100. -/
theorem heightR_200_100_90 : heightR 200 100 90 = 100 := by
  unfold heightR
  rw [tetaRad_90, Real.cos_zero, Real.sin_zero]
  norm_num

/-- The Canvas Sizer width of a 200 by 100 source at 90 degrees is 200. -/
theorem widthR_200_100_90 : widthR 200 100 90 = 200 := by
  unfold widthR
  rw [tetaRad_90, Real.cos_zero, Real.sin_zero]
  norm_num

/-- Counterexample to claim C2 as stated: the containment fails for angles of 90
degrees and beyond, and even inside the first quadrant it fails by a fraction of a
pixel.  At a 200 by 100 source and angle 90 the sizer keeps the 200 by 100 canvas
(the reduced angle is 0) while the rotation is by the full 90 degrees, so source
pixel (0, 0) is carried to (50, 150), far below the destination whose height is
100.  At the 300 by 300 source and angle 45 of the spec scenario, source pixel
(0, 0) is carried to an x coordinate of 212 minus 150 times the square root of two,
which is negative, hence outside the destination bounds. -/
theorem rotate_lossless_containment_cex :
    (heightR 200 100 90 = 100 ∧
      (rotateLosslessMap 200 100 90 ((0 : ℝ), (0 : ℝ))).2 = 150 ∧
      ¬ ((rotateLosslessMap 200 100 90 ((0 : ℝ), (0 : ℝ))).2 <
          (heightR 200 100 90 : ℝ))) ∧
    (widthR 300 300 45 = 425 ∧
      (rotateLosslessMap 300 300 45 ((0 : ℝ), (0 : ℝ))).1 < 0) := by
  have hmapv : (rotateLosslessMap 200 100 90 ((0 : ℝ), (0 : ℝ))).2 = 150 := by
    simp only [rotateLosslessMap, applyA, preTranslationM, getRotationMatrix2D,
      centerR, center]
    rw [heightR_200_100_90, widthR_200_100_90, deg2rad_90, Real.cos_pi_div_two,
      Real.sin_pi_div_two]
    norm_num
  constructor
  · refine ⟨heightR_200_100_90, hmapv, ?_⟩
    rw [hmapv, heightR_200_100_90]
    norm_num
  · refine ⟨widthR_300_45, ?_⟩
    simp only [rotateLosslessMap, applyA, preTranslationM, getRotationMatrix2D,
      centerR, center]
    rw [heightR_300_45, widthR_300_45, deg2rad_45, Real.cos_pi_div_four,
      Real.sin_pi_div_four]
    have h := sqrt2_scaled_lb
    push_cast
    nlinarith

/-- Arithmetic core of the lossless-rotation containment bound, over abstract reals:
cosine alpha and sine beta of a first-quadrant angle, canvas sizes W and H at least
the rotated projections, floored half sizes CX CY A B, and a source coordinate
(X, Y) inside the source rectangle give rotated coordinates within the canvas
enlarged by half a pixel on the low side. -/
theorem rot_bound_core (al be W H CX CY A B X Y wr hr : ℝ)
    (hal : 0 < al) (hbe : 0 ≤ be) (halbe : 1 ≤ al + be)
    (hWlo : wr * al + hr * be ≤ W) (hHlo : wr * be + hr * al ≤ H)
    (hcx1 : 2 * CX ≤ W) (hcx2 : W ≤ 2 * CX + 1)
    (hcy1 : 2 * CY ≤ H) (hcy2 : H ≤ 2 * CY + 1)
    (hA2 : 2 * A ≤ wr) (hA3 : wr ≤ 2 * A + 1)
    (hB2 : 2 * B ≤ hr) (hB3 : hr ≤ 2 * B + 1)
    (hX0 : 0 ≤ X) (hXw : X ≤ wr - 1) (hY0 : 0 ≤ Y) (hYh : Y ≤ hr - 1) :
    (-(1 / 2) ≤ CX + al * (X - A) + be * (Y - B) ∧
      CX + al * (X - A) + be * (Y - B) < W) ∧
    (-(1 / 2) ≤ CY - be * (X - A) + al * (Y - B) ∧
      CY - be * (X - A) + al * (Y - B) < H) := by
  have hXA : X - A ≤ (wr - 1) / 2 := by linarith
  have hYB : Y - B ≤ (hr - 1) / 2 := by linarith
  refine ⟨⟨?_, ?_⟩, ⟨?_, ?_⟩⟩
  · nlinarith [mul_nonneg hal.le hX0, mul_nonneg hbe hY0,
      mul_le_mul_of_nonneg_left hA2 hal.le, mul_le_mul_of_nonneg_left hB2 hbe]
  · nlinarith [mul_le_mul_of_nonneg_left hXA hal.le,
      mul_le_mul_of_nonneg_left hYB hbe]
  · nlinarith [mul_le_mul_of_nonneg_left hXA hbe, mul_nonneg hal.le hY0,
      mul_le_mul_of_nonneg_left hB2 hal.le]
  · nlinarith [mul_nonneg hbe hX0, mul_le_mul_of_nonneg_left hA2 hbe,
      mul_le_mul_of_nonneg_left hYB hal.le]

/-- Claim C2 as amended: for angles in [0, 90) degrees the lossless pipeline is
sound up to the half-pixel slack produced by the integer centers: the destination
dimensions are at least the rotated bounding-box projections of the source, and the
rotated coordinate of every source pixel lies within the destination bounds
enlarged by half a pixel on the low side (at least minus one half, strictly below
the destination width and height). -/
theorem rotate_lossless_bounds (w h : ℕ) (teta : ℤ) (hw : 1 ≤ w) (hh : 1 ≤ h)
    (ht0 : 0 ≤ teta) (ht90 : teta < 90) (x y : ℕ) (hx : x < w) (hy : y < h) :
    ((w : ℝ) * |Real.cos (deg2rad (teta : ℝ))| +
        (h : ℝ) * |Real.sin (deg2rad (teta : ℝ))| ≤ (widthR w h teta : ℝ)) ∧
    ((w : ℝ) * |Real.sin (deg2rad (teta : ℝ))| +
        (h : ℝ) * |Real.cos (deg2rad (teta : ℝ))| ≤ (heightR w h teta : ℝ)) ∧
    (-(1 / 2 : ℝ) ≤ (rotateLosslessMap w h teta ((x : ℝ), (y : ℝ))).1 ∧
      (rotateLosslessMap w h teta ((x : ℝ), (y : ℝ))).1 < (widthR w h teta : ℝ)) ∧
    (-(1 / 2 : ℝ) ≤ (rotateLosslessMap w h teta ((x : ℝ), (y : ℝ))).2 ∧
      (rotateLosslessMap w h teta ((x : ℝ), (y : ℝ))).2 < (heightR w h teta : ℝ)) := by
  have hmod : teta % 90 = teta := Int.emod_eq_of_lt ht0 ht90
  have hrad : tetaRad teta = deg2rad ((teta : ℤ) : ℝ) := by
    unfold tetaRad
    rw [hmod]
  have hWdef : widthR w h teta =
      ⌈(w : ℝ) * Real.cos (deg2rad ((teta : ℤ) : ℝ)) +
        (h : ℝ) * Real.sin (deg2rad ((teta : ℤ) : ℝ))⌉ := by
    unfold widthR
    rw [hrad]
  have hHdef : heightR w h teta =
      ⌈(w : ℝ) * Real.sin (deg2rad ((teta : ℤ) : ℝ)) +
        (h : ℝ) * Real.cos (deg2rad ((teta : ℤ) : ℝ))⌉ := by
    unfold heightR
    rw [hrad]
  have hmap1 : (rotateLosslessMap w h teta ((x : ℝ), (y : ℝ))).1 =
      ((centerR w h teta).1 : ℝ) +
        Real.cos (deg2rad ((teta : ℤ) : ℝ)) * ((x : ℝ) - ((w / 2 : ℕ) : ℝ)) +
        Real.sin (deg2rad ((teta : ℤ) : ℝ)) * ((y : ℝ) - ((h / 2 : ℕ) : ℝ)) := by
    simp only [rotateLosslessMap, applyA, preTranslationM, getRotationMatrix2D, center]
    simp only [Int.cast_sub, Int.cast_natCast]
    ring
  have hmap2 : (rotateLosslessMap w h teta ((x : ℝ), (y : ℝ))).2 =
      ((centerR w h teta).2 : ℝ) -
        Real.sin (deg2rad ((teta : ℤ) : ℝ)) * ((x : ℝ) - ((w / 2 : ℕ) : ℝ)) +
        Real.cos (deg2rad ((teta : ℤ) : ℝ)) * ((y : ℝ) - ((h / 2 : ℕ) : ℝ)) := by
    simp only [rotateLosslessMap, applyA, preTranslationM, getRotationMatrix2D, center]
    simp only [Int.cast_sub, Int.cast_natCast]
    ring
  have hφ0 : 0 ≤ deg2rad ((teta : ℤ) : ℝ) := by
    unfold deg2rad
    have ht : (0 : ℝ) ≤ (teta : ℝ) := by exact_mod_cast ht0
    have hπ := Real.pi_pos
    positivity
  have hφlt : deg2rad ((teta : ℤ) : ℝ) < Real.pi / 2 := by
    unfold deg2rad
    have ht : (teta : ℝ) ≤ 89 := by exact_mod_cast (by omega : teta ≤ 89)
    have hπ := Real.pi_pos
    rw [div_lt_iff (by norm_num : (0 : ℝ) < 180)]
    nlinarith
  have hα : 0 < Real.cos (deg2rad ((teta : ℤ) : ℝ)) :=
    Real.cos_pos_of_mem_Ioo ⟨by linarith [Real.pi_pos], hφlt⟩
  have hβ : 0 ≤ Real.sin (deg2rad ((teta : ℤ) : ℝ)) :=
    Real.sin_nonneg_of_nonneg_of_le_pi hφ0 (by linarith [Real.pi_pos])
  have hα1 : Real.cos (deg2rad ((teta : ℤ) : ℝ)) ≤ 1 := Real.cos_le_one _
  have hβ1 : Real.sin (deg2rad ((teta : ℤ) : ℝ)) ≤ 1 := Real.sin_le_one _
  have hpyth : Real.sin (deg2rad ((teta : ℤ) : ℝ)) ^ 2 +
      Real.cos (deg2rad ((teta : ℤ) : ℝ)) ^ 2 = 1 := Real.sin_sq_add_cos_sq _
  have hαβ : 1 ≤ Real.cos (deg2rad ((teta : ℤ) : ℝ)) +
      Real.sin (deg2rad ((teta : ℤ) : ℝ)) := by nlinarith
  have hWlo : (w : ℝ) * Real.cos (deg2rad ((teta : ℤ) : ℝ)) +
      (h : ℝ) * Real.sin (deg2rad ((teta : ℤ) : ℝ)) ≤ (widthR w h teta : ℝ) := by
    rw [hWdef]
    exact Int.le_ceil _
  have hHlo : (w : ℝ) * Real.sin (deg2rad ((teta : ℤ) : ℝ)) +
      (h : ℝ) * Real.cos (deg2rad ((teta : ℤ) : ℝ)) ≤ (heightR w h teta : ℝ) := by
    rw [hHdef]
    exact Int.le_ceil _
  have hcxZ : 2 * (centerR w h teta).1 ≤ widthR w h teta ∧
      widthR w h teta ≤ 2 * (centerR w h teta).1 + 1 := by
    unfold centerR
    omega
  have hcyZ : 2 * (centerR w h teta).2 ≤ heightR w h teta ∧
      heightR w h teta ≤ 2 * (centerR w h teta).2 + 1 := by
    unfold centerR
    omega
  have hcx1 : 2 * ((centerR w h teta).1 : ℝ) ≤ (widthR w h teta : ℝ) := by
    exact_mod_cast hcxZ.1
  have hcx2 : (widthR w h teta : ℝ) ≤ 2 * ((centerR w h teta).1 : ℝ) + 1 := by
    exact_mod_cast hcxZ.2
  have hcy1 : 2 * ((centerR w h teta).2 : ℝ) ≤ (heightR w h teta : ℝ) := by
    exact_mod_cast hcyZ.1
  have hcy2 : (heightR w h teta : ℝ) ≤ 2 * ((centerR w h teta).2 : ℝ) + 1 := by
    exact_mod_cast hcyZ.2
  have hA2 : 2 * ((w / 2 : ℕ) : ℝ) ≤ (w : ℝ) := by
    exact_mod_cast (by omega : 2 * (w / 2) ≤ w)
  have hA3 : (w : ℝ) ≤ 2 * ((w / 2 : ℕ) : ℝ) + 1 := by
    exact_mod_cast (by omega : w ≤ 2 * (w / 2) + 1)
  have hB2 : 2 * ((h / 2 : ℕ) : ℝ) ≤ (h : ℝ) := by
    exact_mod_cast (by omega : 2 * (h / 2) ≤ h)
  have hB3 : (h : ℝ) ≤ 2 * ((h / 2 : ℕ) : ℝ) + 1 := by
    exact_mod_cast (by omega : h ≤ 2 * (h / 2) + 1)
  have hX0 : (0 : ℝ) ≤ (x : ℝ) := Nat.cast_nonneg x
  have hY0 : (0 : ℝ) ≤ (y : ℝ) := Nat.cast_nonneg y
  have hXw : (x : ℝ) ≤ (w : ℝ) - 1 := by
    have : (x : ℝ) + 1 ≤ (w : ℝ) := by exact_mod_cast hx
    linarith
  have hYh : (y : ℝ) ≤ (h : ℝ) - 1 := by
    have : (y : ℝ) + 1 ≤ (h : ℝ) := by exact_mod_cast hy
    linarith
  have core := rot_bound_core (Real.cos (deg2rad ((teta : ℤ) : ℝ)))
    (Real.sin (deg2rad ((teta : ℤ) : ℝ)))
    ((widthR w h teta : ℝ)) ((heightR w h teta : ℝ))
    (((centerR w h teta).1 : ℝ)) (((centerR w h teta).2 : ℝ))
    (((w / 2 : ℕ) : ℝ)) (((h / 2 : ℕ) : ℝ)) ((x : ℝ)) ((y : ℝ)) ((w : ℝ)) ((h : ℝ))
    hα hβ hαβ hWlo hHlo hcx1 hcx2 hcy1 hcy2 hA2 hA3 hB2 hB3 hX0 hXw hY0 hYh
  refine ⟨?_, ?_, ?_, ?_⟩
  · rw [abs_of_pos hα, abs_of_nonneg hβ]
    exact hWlo
  · rw [abs_of_nonneg hβ, abs_of_pos hα]
    exact hHlo
  · rw [hmap1]
    exact core.1
  · rw [hmap2]
    exact core.2

/-- Witness for the amended claim C2 at a concrete input: a 1 by 1 source at angle
0, source pixel (0, 0). -/
theorem rotate_lossless_bounds_witness :
    (((1 : ℕ) : ℝ) * |Real.cos (deg2rad (((0 : ℤ)) : ℝ))| +
        ((1 : ℕ) : ℝ) * |Real.sin (deg2rad (((0 : ℤ)) : ℝ))| ≤ (widthR 1 1 0 : ℝ)) ∧
    (((1 : ℕ) : ℝ) * |Real.sin (deg2rad (((0 : ℤ)) : ℝ))| +
        ((1 : ℕ) : ℝ) * |Real.cos (deg2rad (((0 : ℤ)) : ℝ))| ≤ (heightR 1 1 0 : ℝ)) ∧
    (-(1 / 2 : ℝ) ≤ (rotateLosslessMap 1 1 0 (((0 : ℕ) : ℝ), ((0 : ℕ) : ℝ))).1 ∧
      (rotateLosslessMap 1 1 0 (((0 : ℕ) : ℝ), ((0 : ℕ) : ℝ))).1 < (widthR 1 1 0 : ℝ)) ∧
    (-(1 / 2 : ℝ) ≤ (rotateLosslessMap 1 1 0 (((0 : ℕ) : ℝ), ((0 : ℕ) : ℝ))).2 ∧
      (rotateLosslessMap 1 1 0 (((0 : ℕ) : ℝ), ((0 : ℕ) : ℝ))).2 < (heightR 1 1 0 : ℝ)) :=
  rotate_lossless_bounds 1 1 0 (le_refl 1) (le_refl 1) (le_refl 0) (by decide)
    0 0 (by decide) (by decide)

end Transformation
